import Mathlib

/-!
Shallow embedding of the wordle solver core (src/wordle.py) and proofs of the
spec claims. Words are lists of characters. Per-occurrence feedback signals
keep the encoding of the source: `some true` means the letter is in the
correct location, `some false` means the letter is not in the word (Absent),
and `none` means the letter is in the word but not at that position
(Misplaced).

The Python dictionary of letter filters is keyed by the 26 ascii lowercase
letters; we model it as a total function on `Char`, which agrees with the
source on every key the source can ever access (update validates that the
guess is lowercase alphabetic before touching the map, and accept and the
ranking only iterate over the 26 lowercase letters).

Python `list.sort` is a stable sort; any two stable sorts with the same
comparator produce the same output list, so we model it with the structurally
recursive `List.insertionSort`, which Mathlib proves stable
(`List.pair_sublist_insertionSort`). Sorting ascending by the Python key
`-score(w)` is the same as sorting with the relation `score b ≤ score a`.
-/

namespace Wordle

/-- Words are lists of characters (Python strings restricted to their
character sequences). -/
abbrev Word := List Char

/-- The 26 keys of the letter-filter dictionary (`string.ascii_lowercase`). -/
def asciiLowercase : List Char :=
  ['a', 'b', 'c', 'd', 'e', 'f', 'g', 'h', 'i', 'j', 'k', 'l', 'm',
   'n', 'o', 'p', 'q', 'r', 's', 't', 'u', 'v', 'w', 'x', 'y', 'z']

/-- Embedding of `_is_lower`: every character is an ascii lowercase letter. -/
def is_lower (w : Word) : Bool :=
  w.all fun c => decide ('a' ≤ c) && decide (c ≤ 'z')

/-- Embedding of `LetterFilter`: per-letter positional knowledge. A position
holds `none` when nothing is known, `some true` when the letter must match
there, `some false` when it must not match there. -/
@[ext]
structure LetterFilter where
  letter : Char
  positions : List (Option Bool)
  required : Bool
deriving DecidableEq, Repr

/-- Embedding of `LetterFilter.__init__` for a valid configuration (the
source raises `ValueError` on a non-single-character letter or a
non-positive word length; no claim exercises those paths). -/
def LetterFilter.init (letter : Char) (word_length : Nat) : LetterFilter :=
  { letter := letter
    positions := List.replicate word_length none
    required := false }

/-- Embedding of the `LetterFilter.disqualified` property: every position is
`some false`. -/
def LetterFilter.disqualified (f : LetterFilter) : Bool :=
  f.positions.all (· == some false)

/-- Embedding of `LetterFilter.accept`. The source loop accumulates
`has_letter` across all indices and early-returns `False` on the first
position whose recorded constraint the word violates; that is the
conjunction below. The length test mirrors the early return on `None` or a
length mismatch. -/
def LetterFilter.accept (f : LetterFilter) (word : Option Word) : Bool :=
  match word with
  | none => false
  | some w =>
    if w.length ≠ f.positions.length then false
    else
      ((w.zip f.positions).all fun cv =>
        match cv.2 with
        | none => true
        | some b => if b then cv.1 == f.letter else cv.1 != f.letter)
      && (!f.required || w.any (· == f.letter))

/-- Embedding of `LetterFilter.set_at_index`. Inside `Filter.update` the
index is always in range (it is an index into the validated guess word), so
the `IndexError` branch of the source is unreachable there; `List.set` is
the identity out of range. -/
def LetterFilter.setAtIndex (f : LetterFilter) (index : Nat) (value : Bool)
    (required : Bool) : LetterFilter :=
  { f with positions := f.positions.set index (some value), required := required }

/-- Embedding of `LetterFilter.disqualify`: every position becomes
`some false` and the required flag is cleared. -/
def LetterFilter.disqualify (f : LetterFilter) : LetterFilter :=
  { f with positions := List.replicate f.positions.length (some false)
           required := false }

/-- Embedding of the `LetterFilter.unknown` property. -/
def LetterFilter.unknown (f : LetterFilter) : Bool :=
  f.positions.all (· == none)

/-- Embedding of `Filter`: one letter filter per letter, all sharing the
configured word length. -/
@[ext]
structure Filter where
  word_length : Nat
  letterFilters : Char → LetterFilter

/-- Embedding of `Filter.__init__`. -/
def Filter.init (word_length : Nat) : Filter :=
  { word_length := word_length
    letterFilters := fun c => LetterFilter.init c word_length }

/-- Embedding of `Filter.accept`: every letter filter must accept the word. -/
def Filter.accept (F : Filter) (word : Option Word) : Bool :=
  asciiLowercase.all fun l => (F.letterFilters l).accept word

/-- Embedding of the `Filter.unknown_letters` property, as the sublist of
`asciiLowercase` whose filters are still unknown (the source returns the
corresponding set). -/
def Filter.unknown_letters (F : Filter) : List Char :=
  asciiLowercase.filter fun l => (F.letterFilters l).unknown

/-- Replace the letter filter of one letter (the effect of mutating one
entry of the letter-filter dictionary). -/
def Filter.setLetter (F : Filter) (c : Char) (lf : LetterFilter) : Filter :=
  { F with letterFilters := fun x => if x = c then lf else F.letterFilters x }

/-- One iteration of the `for ix, letter in enumerate(word)` loop body of
`Filter.update`: `p = (ix, letter, values[ix])`. -/
def Filter.step (F : Filter) (p : Nat × Char × Option Bool) : Filter :=
  match p.2.2 with
  | none => F.setLetter p.2.1 ((F.letterFilters p.2.1).setAtIndex p.1 false true)
  | some true => F.setLetter p.2.1 ((F.letterFilters p.2.1).setAtIndex p.1 true true)
  | some false => F.setLetter p.2.1 (F.letterFilters p.2.1).disqualify

/-- The whole update loop of `Filter.update`, over the list of
(index, letter, signal) triples. -/
def Filter.applyGuess (F : Filter) (ps : List (Nat × Char × Option Bool)) : Filter :=
  ps.foldl Filter.step F

/-- Embedding of `Filter.update`: the three validations happen before any
mutation, then the loop runs over the lowercased word zipped with the
signal values. The source raises `ValueError` with a formatted message; we
return a fixed message for each case. -/
def Filter.update (F : Filter) (word : Word) (values : List (Option Bool)) :
    Except String Filter :=
  if word.length ≠ F.word_length then
    .error "word is not the right length"
  else if values.length ≠ F.word_length then
    .error "values length does not match that of word"
  else
    let w := word.map Char.toLower
    if ¬ is_lower w then
      .error "word contains non-alphabetic characters"
    else
      .ok (F.applyGuess ((w.zip values).enum))

/-- The filter state after `Filter.update`, with the source convention that
a raised validation error leaves the filter unchanged. -/
def Filter.updateD (F : Filter) (word : Word) (values : List (Option Bool)) : Filter :=
  match F.update word values with
  | .ok F2 => F2
  | .error _ => F

/-- Embedding of the letter-frequency table built by the first loop of
`Solver._sort_word_list`: starting from zero, every occurrence of a letter
in a pool word increments that letter by one. The source dictionary is
keyed by the 26 lowercase letters; the embedding is total on `Char` and
agrees with the source on those keys. -/
def letterValues (pool : List Word) : Char → Nat :=
  pool.foldl
    (fun lv w => w.foldl (fun lv2 c => Function.update lv2 c (lv2 c + 1)) lv)
    (fun _ => 0)

/-- Modelled from the spec, for comparison only (claim C3): a frequency
table that counts each distinct letter once per word it appears in. -/
def distinctLetterValues (pool : List Word) (c : Char) : Nat :=
  pool.countP fun w => decide (c ∈ w)

/-- The letter values after the boost of `_sort_word_list`: letters still in
`unknown_letters` are multiplied by `word_length * len(word_list)`. -/
def scaledValues (F : Filter) (word_length : Nat) (pool : List Word) :
    Char → Nat :=
  fun c =>
    if c ∈ F.unknown_letters then
      letterValues pool c * (word_length * pool.length)
    else
      letterValues pool c

/-- The sort key of `_sort_word_list` without its negation: the sum of the
values of the distinct letters of a word (`set(w)` in the source). -/
def wordScore (lv : Char → Nat) (w : Word) : Nat :=
  (w.dedup.map lv).sum

/-- The ordering used to model the Python stable sort ascending by the key
`-score(w)`: a word may come before another exactly when its score is at
least as large. -/
def rankRel (lv : Char → Nat) (a b : Word) : Prop :=
  wordScore lv b ≤ wordScore lv a

instance (lv : Char → Nat) : DecidableRel (rankRel lv) :=
  fun _ _ => Nat.decLe _ _

instance (lv : Char → Nat) : IsTotal Word (rankRel lv) :=
  ⟨fun a b => Nat.le_total (wordScore lv b) (wordScore lv a)⟩

instance (lv : Char → Nat) : IsTrans Word (rankRel lv) :=
  ⟨fun _ _ _ h1 h2 => Nat.le_trans h2 h1⟩

/-- Embedding of `Solver._sort_word_list`: compute the boosted letter values
from the current pool and stable-sort the pool descending by score. -/
def sortWordList (F : Filter) (word_length : Nat) (pool : List Word) :
    List Word :=
  pool.insertionSort (rankRel (scaledValues F word_length pool))

/-- Embedding of `Solver`. The source also initializes a `_frequency`
dictionary of zeros that no other code reads; it is omitted. -/
structure Solver where
  word_length : Nat
  filt : Filter
  word_list : List Word

/-- Embedding of `Solver.__init__`. The source reads the corpus from the
global `WORDS` of the module `words`, which is not part of the sources
under verification; the corpus is taken here as a parameter. Construction
keeps the corpus words of the configured length and sorts them. -/
def Solver.init (word_length : Nat) (corpus : List Word) : Solver :=
  let F := Filter.init word_length
  let pool := corpus.filter fun w => w.length == word_length
  { word_length := word_length
    filt := F
    word_list := sortWordList F word_length pool }

/-- Embedding of `Solver.update`: delegate to `Filter.update` (whose
validation error propagates, leaving the solver untouched), then keep the
accepted words and re-sort them. -/
def Solver.update (s : Solver) (word : Word) (values : List (Option Bool)) :
    Except String Solver :=
  match s.filt.update word values with
  | .error e => .error e
  | .ok F =>
    let pool := s.word_list.filter fun w => F.accept (some w)
    .ok { word_length := s.word_length
          filt := F
          word_list := sortWordList F s.word_length pool }

/-- The solver state after `Solver.update`, with the source convention that
a raised validation error leaves the solver unchanged. -/
def Solver.updateD (s : Solver) (word : Word) (values : List (Option Bool)) : Solver :=
  match s.update word values with
  | .ok s2 => s2
  | .error _ => s

/-- Embedding of `Solver.top`. -/
def Solver.top (s : Solver) (count : Option Nat) : List Word :=
  match count with
  | none => s.word_list
  | some n => s.word_list.take n

/-! ### Per-letter view of the update loop

Each iteration of the update loop mutates exactly one letter filter, either
by `set_at_index` or by `disqualify`. The lemmas below recast the loop as,
for each letter, a sequence of such operations, which is what the claims
about a single letter reason over. -/

/-- One mutation of a single letter filter, as performed by the update
loop. -/
inductive LFOp where
  | setAt : Nat → Bool → Bool → LFOp
  | disq : LFOp
deriving DecidableEq, Repr

/-- The operation the update loop performs on the filter of the letter at a
given index, for each of the three signals. -/
def LFOp.ofSignal (ix : Nat) (v : Option Bool) : LFOp :=
  match v with
  | none => .setAt ix false true
  | some true => .setAt ix true true
  | some false => .disq

def LetterFilter.applyOp (f : LetterFilter) (o : LFOp) : LetterFilter :=
  match o with
  | .setAt ix v r => f.setAtIndex ix v r
  | .disq => f.disqualify

def LetterFilter.applyOps (f : LetterFilter) (ops : List LFOp) : LetterFilter :=
  ops.foldl LetterFilter.applyOp f

/-- The operations the update loop applies to the filter of letter `l`, in
loop order. -/
def opsFor (l : Char) (ps : List (Nat × Char × Option Bool)) : List LFOp :=
  ps.filterMap fun p => if p.2.1 = l then some (LFOp.ofSignal p.1 p.2.2) else none

/-- The required flag any operation writes (both operations overwrite the
flag unconditionally in the source). -/
def LFOp.reqOf : LFOp → Bool
  | .setAt _ _ r => r
  | .disq => false

/-- The position slots an operation overwrites. -/
def LFOp.writesAt : LFOp → Nat → Prop
  | .setAt ix _ _, j => ix = j
  | .disq, _ => True

/-! ### Concrete inputs used by scenario claims and witnesses -/

def appleWord : Word := ['a', 'p', 'p', 'l', 'e']

/-- Signals of spec scenario 1 for the guess `apple`: ExactMatch,
ExactMatch, Absent, Absent, Absent on the letters a, p, p, l, e; the second
occurrence of p carries an Absent signal while the first carries
ExactMatch. -/
def appleSignals : List (Option Bool) :=
  [some true, some true, some false, some false, some false]

def craneWord : Word := ['c', 'r', 'a', 'n', 'e']

def slateWord : Word := ['s', 'l', 'a', 't', 'e']

def plateWord : Word := ['p', 'l', 'a', 't', 'e']

def grateWord : Word := ['g', 'r', 'a', 't', 'e']

/-- The corpus of spec scenario 2. -/
def corpusFive : List Word := [craneWord, slateWord, plateWord, grateWord]

/-- A corpus of two-letter words whose initial ranking reorders the pool:
initial per-occurrence frequencies are a,b,d,e at one and c at two, so the
initial order is cd, ce, ab. -/
def corpusTwo : List Word := [['a', 'b'], ['c', 'd'], ['c', 'e']]

theorem Filter.setLetter_same (F : Filter) (c : Char) (lf : LetterFilter) :
    (F.setLetter c lf).letterFilters c = lf := by
  simp [Filter.setLetter]

theorem Filter.setLetter_other (F : Filter) (c x : Char) (lf : LetterFilter)
    (h : x ≠ c) : (F.setLetter c lf).letterFilters x = F.letterFilters x := by
  simp [Filter.setLetter, h]

theorem Filter.step_eq (F : Filter) (p : Nat × Char × Option Bool) :
    F.step p = F.setLetter p.2.1
      ((F.letterFilters p.2.1).applyOp (LFOp.ofSignal p.1 p.2.2)) := by
  rcases p with ⟨ix, c, v⟩
  match v with
  | none => rfl
  | some true => rfl
  | some false => rfl

theorem Filter.step_word_length (F : Filter) (p : Nat × Char × Option Bool) :
    (F.step p).word_length = F.word_length := by
  rw [Filter.step_eq]; rfl

theorem Filter.applyGuess_word_length (ps : List (Nat × Char × Option Bool)) :
    ∀ F : Filter, (F.applyGuess ps).word_length = F.word_length := by
  induction ps with
  | nil => intro F; rfl
  | cons p rest ih =>
    intro F
    show ((F.step p).applyGuess rest).word_length = F.word_length
    rw [ih, Filter.step_word_length]

theorem Filter.applyGuess_letterFilters (ps : List (Nat × Char × Option Bool)) :
    ∀ (F : Filter) (l : Char),
      (F.applyGuess ps).letterFilters l =
        (F.letterFilters l).applyOps (opsFor l ps) := by
  induction ps with
  | nil => intro F l; rfl
  | cons p rest ih =>
    intro F l
    show ((F.step p).applyGuess rest).letterFilters l = _
    rw [ih, Filter.step_eq]
    by_cases h : p.2.1 = l
    · subst h
      rw [Filter.setLetter_same]
      show _ = (F.letterFilters p.2.1).applyOps (opsFor p.2.1 (p :: rest))
      have : opsFor p.2.1 (p :: rest) =
          LFOp.ofSignal p.1 p.2.2 :: opsFor p.2.1 rest := by
        simp [opsFor, List.filterMap_cons]
      rw [this]
      rfl
    · rw [Filter.setLetter_other _ _ _ _ (fun hl => h hl.symm)]
      have : opsFor l (p :: rest) = opsFor l rest := by
        simp [opsFor, List.filterMap_cons, h]
      rw [this]

theorem LetterFilter.applyOp_letter (f : LetterFilter) (o : LFOp) :
    (f.applyOp o).letter = f.letter := by
  cases o <;> rfl

theorem LetterFilter.applyOps_letter (ops : List LFOp) :
    ∀ f : LetterFilter, (f.applyOps ops).letter = f.letter := by
  induction ops with
  | nil => intro f; rfl
  | cons o rest ih =>
    intro f
    show ((f.applyOp o).applyOps rest).letter = f.letter
    rw [ih, LetterFilter.applyOp_letter]

theorem LetterFilter.applyOp_len (f : LetterFilter) (o : LFOp) :
    (f.applyOp o).positions.length = f.positions.length := by
  cases o <;> simp [LetterFilter.applyOp, LetterFilter.setAtIndex,
    LetterFilter.disqualify]

theorem LetterFilter.applyOps_len (ops : List LFOp) :
    ∀ f : LetterFilter, (f.applyOps ops).positions.length = f.positions.length := by
  induction ops with
  | nil => intro f; rfl
  | cons o rest ih =>
    intro f
    show ((f.applyOp o).applyOps rest).positions.length = _
    rw [ih, LetterFilter.applyOp_len]

theorem LetterFilter.applyOp_required (f : LetterFilter) (o : LFOp) :
    (f.applyOp o).required = o.reqOf := by
  cases o <;> rfl

theorem LetterFilter.applyOp_pos_of_not_writes (f : LetterFilter) (o : LFOp)
    (j : Nat) (h : ¬ o.writesAt j) :
    (f.applyOp o).positions[j]? = f.positions[j]? := by
  cases o with
  | setAt ix v r =>
    have hne : ix ≠ j := h
    simp [LetterFilter.applyOp, LetterFilter.setAtIndex,
      List.getElem?_set_ne hne]
  | disq => exact absurd trivial h

theorem LetterFilter.applyOp_pos_of_writes (s t : LetterFilter) (o : LFOp)
    (j : Nat) (hlen : s.positions.length = t.positions.length)
    (h : o.writesAt j) :
    (s.applyOp o).positions[j]? = (t.applyOp o).positions[j]? := by
  cases o with
  | setAt ix v r =>
    have hj : ix = j := h
    subst hj
    simp [LetterFilter.applyOp, LetterFilter.setAtIndex, List.getElem?_set,
      hlen]
  | disq =>
    simp [LetterFilter.applyOp, LetterFilter.disqualify,
      List.getElem?_replicate, hlen]

theorem LetterFilter.applyOps_pos_of_not_writes (ops : List LFOp) :
    ∀ (f : LetterFilter) (j : Nat), (∀ o ∈ ops, ¬ o.writesAt j) →
      (f.applyOps ops).positions[j]? = f.positions[j]? := by
  induction ops with
  | nil => intro f j _; rfl
  | cons o rest ih =>
    intro f j h
    show ((f.applyOp o).applyOps rest).positions[j]? = _
    rw [ih _ j (fun o2 ho2 => h o2 (List.mem_cons_of_mem o ho2)),
      LetterFilter.applyOp_pos_of_not_writes _ _ _ (h o (List.mem_cons_self o rest))]

/-- Two letter filters with the same letter evolve to the same state under a
sequence of operations, as soon as they agree on every position slot the
sequence does not overwrite (and, for the empty sequence, on the required
flag): every operation writes constants that do not depend on the current
state. -/
theorem LetterFilter.applyOps_congr (ops : List LFOp) :
    ∀ s t : LetterFilter, s.letter = t.letter →
      s.positions.length = t.positions.length →
      (∀ j, (∀ o ∈ ops, ¬ o.writesAt j) → s.positions[j]? = t.positions[j]?) →
      (ops = [] → s.required = t.required) →
      s.applyOps ops = t.applyOps ops := by
  induction ops with
  | nil =>
    intro s t hlet hlen hpos hreq
    show s = t
    ext1
    · exact hlet
    · exact List.ext_getElem? fun j => hpos j (fun o ho => absurd ho (List.not_mem_nil o))
    · exact hreq rfl
  | cons o rest ih =>
    intro s t hlet hlen hpos _
    show ((s.applyOp o).applyOps rest) = ((t.applyOp o).applyOps rest)
    refine ih (s.applyOp o) (t.applyOp o) ?_ ?_ ?_ ?_
    · rw [LetterFilter.applyOp_letter, LetterFilter.applyOp_letter, hlet]
    · rw [LetterFilter.applyOp_len, LetterFilter.applyOp_len, hlen]
    · intro j hj
      by_cases hw : o.writesAt j
      · exact LetterFilter.applyOp_pos_of_writes s t o j hlen hw
      · rw [LetterFilter.applyOp_pos_of_not_writes s o j hw,
          LetterFilter.applyOp_pos_of_not_writes t o j hw]
        exact hpos j fun o2 ho2 => by
          rcases List.mem_cons.mp ho2 with h2 | h2
          · exact h2 ▸ hw
          · exact hj o2 h2
    · intro _
      rw [LetterFilter.applyOp_required, LetterFilter.applyOp_required]

/-- Replaying the same operation sequence a second time changes nothing:
every operation writes values that depend only on the operation, never on
the state it is applied to. -/
theorem LetterFilter.applyOps_idem (ops : List LFOp) (s : LetterFilter) :
    (s.applyOps ops).applyOps ops = s.applyOps ops := by
  cases ops with
  | nil => rfl
  | cons o rest =>
    show ((((s.applyOp o).applyOps rest).applyOp o).applyOps rest) =
      (s.applyOp o).applyOps rest
    refine LetterFilter.applyOps_congr rest _ _ ?_ ?_ ?_ ?_
    · rw [LetterFilter.applyOp_letter, LetterFilter.applyOps_letter,
        LetterFilter.applyOp_letter]
    · rw [LetterFilter.applyOp_len, LetterFilter.applyOps_len,
        LetterFilter.applyOp_len]
    · intro j hj
      by_cases hw : o.writesAt j
      · exact LetterFilter.applyOp_pos_of_writes _ _ o j
          (by rw [LetterFilter.applyOps_len, LetterFilter.applyOp_len]) hw
      · rw [LetterFilter.applyOp_pos_of_not_writes _ o j hw,
          LetterFilter.applyOp_pos_of_not_writes _ o j hw,
          LetterFilter.applyOps_pos_of_not_writes rest _ j hj]
        exact LetterFilter.applyOp_pos_of_not_writes s o j hw
    · intro _
      rw [LetterFilter.applyOp_required, LetterFilter.applyOp_required]

/-! ### Characterizing a successful update -/

theorem Filter.update_eq_ok (F : Filter) (word : Word)
    (values : List (Option Bool)) (h1 : word.length = F.word_length)
    (h2 : values.length = F.word_length)
    (h3 : is_lower (word.map Char.toLower) = true) :
    F.update word values =
      .ok (F.applyGuess (((word.map Char.toLower).zip values).enum)) := by
  simp [Filter.update, h1, h2, h3]

theorem Filter.update_isOk_then (F : Filter) (word : Word)
    (values : List (Option Bool)) (h : (F.update word values).isOk = true) :
    word.length = F.word_length ∧ values.length = F.word_length ∧
      is_lower (word.map Char.toLower) = true := by
  by_cases h1 : word.length = F.word_length
  · by_cases h2 : values.length = F.word_length
    · by_cases h3 : is_lower (word.map Char.toLower) = true
      · exact ⟨h1, h2, h3⟩
      · simp [Filter.update, h1, h2, h3, Except.isOk, Except.toBool] at h
    · simp [Filter.update, h1, h2, Except.isOk, Except.toBool] at h
  · simp [Filter.update, h1, Except.isOk, Except.toBool] at h

theorem Filter.update_ok_inv {F F1 : Filter} {word : Word}
    {values : List (Option Bool)} (h : F.update word values = .ok F1) :
    F1 = F.applyGuess (((word.map Char.toLower).zip values).enum) := by
  have hOk : (F.update word values).isOk = true := by rw [h]; rfl
  obtain ⟨h1, h2, h3⟩ := Filter.update_isOk_then F word values hOk
  rw [Filter.update_eq_ok F word values h1 h2 h3] at h
  exact (Except.ok.inj h).symm

/-- Replaying the whole update loop a second time changes nothing. -/
theorem Filter.applyGuess_idem (F : Filter) (ps : List (Nat × Char × Option Bool)) :
    (F.applyGuess ps).applyGuess ps = F.applyGuess ps := by
  ext1
  · rw [Filter.applyGuess_word_length]
  · funext l
    rw [Filter.applyGuess_letterFilters, Filter.applyGuess_letterFilters]
    exact LetterFilter.applyOps_idem _ _

/-- Updating twice with the same guess and signals saturates: the second
update validates the same input against the same word length and replays
the same writes. -/
theorem Filter.update_idem {F F1 : Filter} {word : Word}
    {values : List (Option Bool)} (h : F.update word values = .ok F1) :
    F1.update word values = .ok F1 := by
  have hOk : (F.update word values).isOk = true := by rw [h]; rfl
  obtain ⟨h1, h2, h3⟩ := Filter.update_isOk_then F word values hOk
  have hF1 := Filter.update_ok_inv h
  have hlen : F1.word_length = F.word_length := by
    rw [hF1, Filter.applyGuess_word_length]
  rw [Filter.update_eq_ok F1 word values (by rw [hlen]; exact h1)
    (by rw [hlen]; exact h2) h3, hF1, Filter.applyGuess_idem]

/-! ### The frequency table -/

theorem letterValues_word_aux (w : Word) :
    ∀ (lv : Char → Nat) (c : Char),
      (w.foldl (fun lv2 c2 => Function.update lv2 c2 (lv2 c2 + 1)) lv) c =
        lv c + w.count c := by
  induction w with
  | nil => intro lv c; simp
  | cons c2 rest ih =>
    intro lv c
    show (rest.foldl _ (Function.update lv c2 (lv c2 + 1))) c = _
    rw [ih, List.count_cons, Function.update_apply]
    by_cases h : c = c2
    · subst h
      simp only [if_pos rfl, beq_self_eq_true, if_true]
      omega
    · have hbeq : (c2 == c) = false := beq_eq_false_iff_ne.mpr (Ne.symm h)
      simp only [if_neg h, hbeq, Bool.false_eq_true, if_false]
      omega

theorem letterValues_aux (pool : List Word) :
    ∀ (lv : Char → Nat) (c : Char),
      (pool.foldl
        (fun lv2 w => w.foldl (fun lv3 c2 => Function.update lv3 c2 (lv3 c2 + 1)) lv2)
        lv) c = lv c + (pool.map fun w => w.count c).sum := by
  induction pool with
  | nil => intro lv c; simp
  | cons w rest ih =>
    intro lv c
    show (rest.foldl _ (w.foldl _ lv)) c = _
    rw [ih, letterValues_word_aux]
    simp [Nat.add_assoc]

/-- The frequency table counts, for each letter, the total number of
occurrences of that letter across the pool. -/
theorem letterValues_eq_sum (pool : List Word) (c : Char) :
    letterValues pool c = (pool.map fun w => w.count c).sum := by
  have := letterValues_aux pool (fun _ => 0) c
  simpa [letterValues] using this

theorem letterValues_perm {pool1 pool2 : List Word} (h : pool1.Perm pool2)
    (c : Char) : letterValues pool1 c = letterValues pool2 c := by
  rw [letterValues_eq_sum, letterValues_eq_sum]
  exact (h.map fun w => w.count c).sum_eq

theorem scaledValues_perm (F : Filter) (word_length : Nat)
    {pool1 pool2 : List Word} (h : pool1.Perm pool2) :
    scaledValues F word_length pool1 = scaledValues F word_length pool2 := by
  funext c
  unfold scaledValues
  rw [letterValues_perm h, h.length_eq]

/-- A sequence consisting only of set operations with the required flag set
keeps a set required flag. -/
theorem LetterFilter.applyOps_required_true (ops : List LFOp) :
    ∀ f : LetterFilter, (∀ o ∈ ops, ∃ ix v, o = LFOp.setAt ix v true) →
      f.required = true → (f.applyOps ops).required = true := by
  induction ops with
  | nil => intro f _ hf; exact hf
  | cons o rest ih =>
    intro f h hf
    show ((f.applyOp o).applyOps rest).required = true
    refine ih (f.applyOp o) (fun o2 ho2 => h o2 (List.mem_cons_of_mem o ho2)) ?_
    rcases h o (List.mem_cons_self o rest) with ⟨ix, v, rfl⟩
    rfl

/-! ### Solver-level helpers -/

theorem Filter.update_error_of_malformed (F : Filter) (word : Word)
    (values : List (Option Bool))
    (h : word.length ≠ F.word_length ∨ values.length ≠ F.word_length ∨
      is_lower (word.map Char.toLower) = false) :
    ∃ e, F.update word values = .error e := by
  by_cases h1 : word.length = F.word_length
  · by_cases h2 : values.length = F.word_length
    · rcases h with h | h | h
      · exact absurd h1 h
      · exact absurd h2 h
      · exact ⟨"word contains non-alphabetic characters",
          by simp [Filter.update, h1, h2, h]⟩
    · exact ⟨"values length does not match that of word",
        by simp [Filter.update, h1, h2]⟩
  · exact ⟨"word is not the right length", by simp [Filter.update, h1]⟩

theorem Solver.update_of_filter_error {s : Solver} {word : Word}
    {values : List (Option Bool)} {e : String}
    (hf : s.filt.update word values = .error e) :
    s.update word values = .error e := by
  unfold Solver.update
  rw [hf]

theorem Solver.update_of_filter_ok {s : Solver} {word : Word}
    {values : List (Option Bool)} {F1 : Filter}
    (hf : s.filt.update word values = .ok F1) :
    s.update word values =
      .ok { word_length := s.word_length
            filt := F1
            word_list := sortWordList F1 s.word_length
              (s.word_list.filter fun w => F1.accept (some w)) } := by
  unfold Solver.update
  rw [hf]

theorem Solver.updateD_of_error {s : Solver} {word : Word}
    {values : List (Option Bool)} {e : String}
    (h : s.update word values = .error e) :
    s.updateD word values = s := by
  unfold Solver.updateD
  rw [h]

theorem Solver.updateD_of_ok {s s2 : Solver} {word : Word}
    {values : List (Option Bool)} (h : s.update word values = .ok s2) :
    s.updateD word values = s2 := by
  unfold Solver.updateD
  rw [h]

theorem Solver.update_filter_ok {s : Solver} {word : Word}
    {values : List (Option Bool)} (h : (s.update word values).isOk = true) :
    ∃ F1, s.filt.update word values = .ok F1 := by
  cases hF : s.filt.update word values with
  | ok F1 => exact ⟨F1, rfl⟩
  | error e =>
    rw [Solver.update_of_filter_error hF] at h
    exact absurd h (by simp [Except.isOk, Except.toBool])

theorem sortWordList_perm (F : Filter) (word_length : Nat) (pool : List Word) :
    (sortWordList F word_length pool).Perm pool :=
  List.perm_insertionSort _ _

theorem sortWordList_sorted (F : Filter) (word_length : Nat) (pool : List Word) :
    (sortWordList F word_length pool).Sorted
      (rankRel (scaledValues F word_length pool)) :=
  List.sorted_insertionSort _ _

/-- Re-sorting an output of the sort with the values recomputed from it is
the identity: the recomputed values agree with the original ones because
the frequency table only depends on the multiset of pool words, and a
stable sort fixes a list that is already sorted. -/
theorem sortWordList_idem (F : Filter) (word_length : Nat) (pool : List Word) :
    sortWordList F word_length (sortWordList F word_length pool) =
      sortWordList F word_length pool := by
  have hperm := sortWordList_perm F word_length pool
  show (sortWordList F word_length pool).insertionSort
      (rankRel (scaledValues F word_length (sortWordList F word_length pool))) =
    sortWordList F word_length pool
  rw [scaledValues_perm F word_length hperm]
  exact List.Sorted.insertionSort_eq (sortWordList_sorted F word_length pool)

/-! ### The claims -/

/-- Claim C4: for every solver state and every malformed input to update
(guess of wrong length, non-alphabetic guess, or signal sequence whose
length differs from the word length), update raises a validation error and
leaves the constraint state and the candidate pool exactly as they were
before the call. -/
theorem C4_malformed_update_rejected (s : Solver) (word : Word)
    (values : List (Option Bool))
    (h : word.length ≠ s.filt.word_length ∨ values.length ≠ s.filt.word_length ∨
      is_lower (word.map Char.toLower) = false) :
    (∃ e, s.update word values = .error e) ∧ s.updateD word values = s := by
  obtain ⟨e, he⟩ := Filter.update_error_of_malformed s.filt word values h
  exact ⟨⟨e, Solver.update_of_filter_error he⟩,
    Solver.updateD_of_error (Solver.update_of_filter_error he)⟩

theorem C4_witness :
    (∃ e, (Solver.init 5 corpusFive).update ['a', 'b'] [] = .error e) ∧
      (Solver.init 5 corpusFive).updateD ['a', 'b'] [] = Solver.init 5 corpusFive :=
  C4_malformed_update_rejected (Solver.init 5 corpusFive) ['a', 'b'] []
    (Or.inl (by decide))

/-- Claim C6: for every solver state and every valid guess+signal input, the
candidate pool after update is a subset of the candidate pool before
update, and the pool size never increases. -/
theorem C6_update_shrinks_pool (s : Solver) (word : Word)
    (values : List (Option Bool)) (h : (s.update word values).isOk = true) :
    (s.updateD word values).word_list ⊆ s.word_list ∧
      (s.updateD word values).word_list.length ≤ s.word_list.length := by
  obtain ⟨F1, hF⟩ := Solver.update_filter_ok h
  rw [Solver.updateD_of_ok (Solver.update_of_filter_ok hF)]
  constructor
  · intro x hx
    have hx2 : x ∈ s.word_list.filter fun w => F1.accept (some w) :=
      (sortWordList_perm F1 s.word_length
        (s.word_list.filter fun w => F1.accept (some w))).mem_iff.mp hx
    exact (List.mem_filter.mp hx2).1
  · show (sortWordList F1 s.word_length
      (s.word_list.filter fun w => F1.accept (some w))).length ≤ s.word_list.length
    rw [(sortWordList_perm F1 s.word_length
      (s.word_list.filter fun w => F1.accept (some w))).length_eq]
    exact List.length_filter_le _ _

theorem C6_witness :
    ((Solver.init 2 corpusTwo).updateD ['e', 'e'] [some false, some false]).word_list ⊆
        (Solver.init 2 corpusTwo).word_list ∧
      ((Solver.init 2 corpusTwo).updateD ['e', 'e'] [some false, some false]).word_list.length ≤
        (Solver.init 2 corpusTwo).word_list.length :=
  C6_update_shrinks_pool (Solver.init 2 corpusTwo) ['e', 'e']
    [some false, some false] (by decide)

/-- Claim C7: for every solver state and every valid guess+signal input,
applying update with that same guess+signal twice in succession yields the
same candidate pool as applying it once. -/
theorem C7_update_idempotent (s : Solver) (word : Word)
    (values : List (Option Bool)) (h : (s.update word values).isOk = true) :
    ((s.updateD word values).updateD word values).word_list =
      (s.updateD word values).word_list := by
  obtain ⟨F1, hF⟩ := Solver.update_filter_ok h
  have h1 : s.updateD word values =
      ⟨s.word_length, F1, sortWordList F1 s.word_length
        (s.word_list.filter fun w => F1.accept (some w))⟩ :=
    Solver.updateD_of_ok (Solver.update_of_filter_ok hF)
  have hF2 : F1.update word values = .ok F1 := Filter.update_idem hF
  have hfil : (sortWordList F1 s.word_length
        (s.word_list.filter fun w => F1.accept (some w))).filter
        (fun w => F1.accept (some w)) =
      sortWordList F1 s.word_length
        (s.word_list.filter fun w => F1.accept (some w)) := by
    refine List.filter_eq_self.mpr ?_
    intro a ha
    have ha2 : a ∈ s.word_list.filter fun w => F1.accept (some w) :=
      (sortWordList_perm F1 s.word_length
        (s.word_list.filter fun w => F1.accept (some w))).mem_iff.mp ha
    exact (List.mem_filter.mp ha2).2
  rw [h1]
  have h2 := @Solver.update_of_filter_ok
    ⟨s.word_length, F1, sortWordList F1 s.word_length
      (s.word_list.filter fun w => F1.accept (some w))⟩ word values F1 hF2
  rw [Solver.updateD_of_ok h2]
  show sortWordList F1 s.word_length
      ((sortWordList F1 s.word_length
        (s.word_list.filter fun w => F1.accept (some w))).filter
        (fun w => F1.accept (some w))) =
    sortWordList F1 s.word_length
      (s.word_list.filter fun w => F1.accept (some w))
  rw [hfil]
  exact sortWordList_idem F1 s.word_length _

theorem C7_witness :
    (((Solver.init 2 corpusTwo).updateD ['e', 'e'] [some false, some false]).updateD
        ['e', 'e'] [some false, some false]).word_list =
      ((Solver.init 2 corpusTwo).updateD ['e', 'e'] [some false, some false]).word_list :=
  C7_update_idempotent (Solver.init 2 corpusTwo) ['e', 'e']
    [some false, some false] (by decide)

/-- Claim C1 counterexample: in the guess apple the letter p carries an
ExactMatch signal at index 1 and an Absent signal at index 2, yet after one
update from the fresh filter the p filter is wholly disqualified (every
position excluded and the required flag cleared, which only disqualify can
produce here since p occurs at no other index). The update loop calls
disqualify unconditionally on an Absent signal, refuting the claim. -/
theorem C1_counterexample :
    appleWord[1]? = some 'p' ∧ appleSignals[1]? = some (some true) ∧
      appleWord[2]? = some 'p' ∧ appleSignals[2]? = some (some false) ∧
      ((Filter.updateD (Filter.init 5) appleWord appleSignals).letterFilters
          'p').disqualified = true ∧
      ((Filter.updateD (Filter.init 5) appleWord appleSignals).letterFilters
          'p').required = false := by
  decide

/-- Claim C1 amended: per-occurrence signals are applied letter-by-letter
in index order and an Absent signal calls disqualify unconditionally, even
when the letter also has a non-Absent signal in the same guess; in
particular a letter whose last per-occurrence signal in the guess is Absent
ends wholly disqualified with the required flag cleared. -/
theorem C1_amended_absent_always_disqualifies (F : Filter) (word : Word)
    (values : List (Option Bool)) (l : Char)
    (hok : (F.update word values).isOk = true)
    (hlast : (opsFor l (((word.map Char.toLower).zip values).enum)).getLast? =
      some LFOp.disq) :
    ((F.updateD word values).letterFilters l).disqualified = true ∧
      ((F.updateD word values).letterFilters l).required = false := by
  obtain ⟨h1, h2, h3⟩ := Filter.update_isOk_then F word values hok
  have hupd := Filter.update_eq_ok F word values h1 h2 h3
  have hD : F.updateD word values =
      F.applyGuess (((word.map Char.toLower).zip values).enum) := by
    unfold Filter.updateD
    rw [hupd]
  obtain ⟨ops1, hops⟩ := List.getLast?_eq_some_iff.mp hlast
  rw [hD, Filter.applyGuess_letterFilters, hops]
  have happ : (F.letterFilters l).applyOps (ops1 ++ [LFOp.disq]) =
      ((F.letterFilters l).applyOps ops1).disqualify := by
    unfold LetterFilter.applyOps
    rw [List.foldl_append]
    rfl
  rw [happ]
  constructor
  · show (List.replicate _ (some false)).all (· == some false) = true
    simp [List.all_eq_true, List.mem_replicate]
  · rfl

theorem C1_amended_witness :
    ((Filter.updateD (Filter.init 5) appleWord appleSignals).letterFilters
        'p').disqualified = true ∧
      ((Filter.updateD (Filter.init 5) appleWord appleSignals).letterFilters
        'p').required = false :=
  C1_amended_absent_always_disqualifies (Filter.init 5) appleWord appleSignals
    'p' (by decide) (by decide)

/-- Claim C2 (the corpus module words.py is not among the sources; per the
spec the corpus entries are deduplicated lowercase-alphabetic words, taken
here as hypotheses): the candidate pool at construction consists exactly of
the corpus words of the configured word length that are
lowercase-alphabetic-only, with duplicates removed. -/
theorem C2_init_pool (word_length : Nat) (corpus : List Word)
    (hdedup : corpus.Nodup) (hlow : ∀ w ∈ corpus, is_lower w = true) :
    (Solver.init word_length corpus).word_list.Nodup ∧
      ∀ w, w ∈ (Solver.init word_length corpus).word_list ↔
        (w ∈ corpus ∧ w.length = word_length ∧ is_lower w = true) := by
  have hperm : (Solver.init word_length corpus).word_list.Perm
      (corpus.filter fun w => w.length == word_length) :=
    sortWordList_perm _ _ _
  constructor
  · exact hperm.nodup_iff.mpr (hdedup.filter _)
  · intro w
    rw [hperm.mem_iff, List.mem_filter]
    constructor
    · rintro ⟨hw, hlen⟩
      exact ⟨hw, by simpa using hlen, hlow w hw⟩
    · rintro ⟨hw, hlen, _⟩
      exact ⟨hw, by simpa using hlen⟩

theorem C2_witness :
    (Solver.init 5 corpusFive).word_list.Nodup ∧
      (slateWord ∈ (Solver.init 5 corpusFive).word_list ↔
        (slateWord ∈ corpusFive ∧ slateWord.length = 5 ∧ is_lower slateWord = true)) :=
  ⟨(C2_init_pool 5 corpusFive (by decide) (by decide)).1,
    (C2_init_pool 5 corpusFive (by decide) (by decide)).2 slateWord⟩

/-- Claim C3 counterexample: over the one-word pool containing apple, the
frequency table of the code gives p the value 2 (one per occurrence), while
the table described by the claim (one per word containing the letter)
gives 1. -/
theorem C3_counterexample :
    letterValues [appleWord] 'p' = 2 ∧ distinctLetterValues [appleWord] 'p' = 1 := by
  decide

/-- Claim C3 amended: the frequency table counts every occurrence, so a
word contributes its occurrence count of each letter (2, not 1, for a
letter it contains twice). -/
theorem C3_amended_counts_occurrences (pool : List Word) (w : Word) (c : Char) :
    letterValues (w :: pool) c = w.count c + letterValues pool c := by
  rw [letterValues_eq_sum, letterValues_eq_sum, List.map_cons, List.sum_cons]

/-- Claim C5 counterexample: after the guess crane with every signal
Absent, slate is no longer in the pool (the signals also disqualify the
letters a and e, which slate contains), refuting the claimed resulting
pool of slate and plate. -/
theorem C5_counterexample :
    ((Solver.init 5 corpusFive).updateD craneWord
      (List.replicate 5 (some false))).word_list.contains slateWord = false := by
  decide

/-- Claim C5 amended: with every signal Absent the letters c, r, a, n, e
are all disqualified, and every word of the corpus contains at least one of
them, so the pool reduces to the empty list. -/
theorem C5_amended_pool_empties :
    ((Solver.init 5 corpusFive).updateD craneWord
      (List.replicate 5 (some false))).word_list = [] := by
  decide

/-- Claim C8 counterexample: in corpusTwo the word ab precedes cd. After
guessing ee with both signals Absent, the surviving candidates cd and ab
have equal scores, yet the ranking lists cd before ab: the sort is stable
with respect to the pool order left by the previous round (where cd scored
higher), not the original corpus order. -/
theorem C8_counterexample :
    ((Solver.init 2 corpusTwo).updateD ['e', 'e'] [some false, some false]).word_list =
        [['c', 'd'], ['a', 'b']] ∧
      wordScore
          (scaledValues
            ((Solver.init 2 corpusTwo).updateD ['e', 'e'] [some false, some false]).filt 2
            ((Solver.init 2 corpusTwo).updateD ['e', 'e'] [some false, some false]).word_list)
          ['c', 'd'] =
        wordScore
          (scaledValues
            ((Solver.init 2 corpusTwo).updateD ['e', 'e'] [some false, some false]).filt 2
            ((Solver.init 2 corpusTwo).updateD ['e', 'e'] [some false, some false]).word_list)
          ['a', 'b'] ∧
      corpusTwo.indexOf ['a', 'b'] < corpusTwo.indexOf ['c', 'd'] := by
  decide

/-- Claim C8 amended: every ranking pass orders the pool descending by
score and is stable with respect to the pool order it is given (which is
the original corpus order only for the initial ranking): a pair in pool
order whose first component scores at least as high stays in that order. -/
theorem C8_amended_sorted_and_stable (F : Filter) (word_length : Nat)
    (pool : List Word) :
    (sortWordList F word_length pool).Pairwise
        (fun a b => wordScore (scaledValues F word_length pool) b ≤
          wordScore (scaledValues F word_length pool) a) ∧
      ∀ a b : Word, [a, b].Sublist pool →
        wordScore (scaledValues F word_length pool) b ≤
          wordScore (scaledValues F word_length pool) a →
        [a, b].Sublist (sortWordList F word_length pool) := by
  constructor
  · exact sortWordList_sorted F word_length pool
  · intro a b hsub hle
    show [a, b].Sublist
      (pool.insertionSort (rankRel (scaledValues F word_length pool)))
    exact List.pair_sublist_insertionSort hle hsub

theorem C8_amended_witness :
    [['c', 'd'], ['a', 'b']].Sublist
      (sortWordList (Filter.init 2) 2 [['c', 'd'], ['a', 'b']]) :=
  (C8_amended_sorted_and_stable (Filter.init 2) 2 [['c', 'd'], ['a', 'b']]).2
    ['c', 'd'] ['a', 'b'] (List.Sublist.refl _) (by decide)

/-- Claim C9: once the required flag of a letter is true, a guess update in
which that letter carries no Absent signal (so the loop only reaches it
through set_at_index, which the loop always calls with required true)
leaves the flag true; only a disqualification triggered by an Absent signal
can clear it. -/
theorem C9_required_never_reset (F : Filter) (word : Word)
    (values : List (Option Bool)) (l : Char)
    (hreq : (F.letterFilters l).required = true)
    (habs : ∀ p ∈ (word.map Char.toLower).zip values, p.1 = l → p.2 ≠ some false) :
    ((F.updateD word values).letterFilters l).required = true := by
  cases hu : F.update word values with
  | error e =>
    have hD : F.updateD word values = F := by
      unfold Filter.updateD
      rw [hu]
    rw [hD]
    exact hreq
  | ok F1 =>
    have hD : F.updateD word values = F1 := by
      unfold Filter.updateD
      rw [hu]
    have hF1 := Filter.update_ok_inv hu
    rw [hD, hF1, Filter.applyGuess_letterFilters]
    refine LetterFilter.applyOps_required_true _ _ ?_ hreq
    intro o ho
    obtain ⟨p, hp, hpo⟩ := List.mem_filterMap.mp ho
    by_cases hl : p.2.1 = l
    · rw [if_pos hl] at hpo
      have ho2 : o = LFOp.ofSignal p.1 p.2.2 := (Option.some.inj hpo).symm
      have hmem : p.2 ∈ (word.map Char.toLower).zip values :=
        List.getElem?_mem (List.mem_enum_iff_getElem?.mp hp)
      have hne := habs p.2 hmem hl
      match hv : p.2.2 with
      | none => exact ⟨p.1, false, by rw [ho2, hv]; rfl⟩
      | some true => exact ⟨p.1, true, by rw [ho2, hv]; rfl⟩
      | some false => exact absurd hv hne
    · rw [if_neg hl] at hpo
      exact absurd hpo (by simp)

theorem C9_witness :
    (((Filter.updateD (Filter.init 5) appleWord appleSignals).updateD slateWord
        (List.replicate 5 none)).letterFilters 'a').required = true :=
  C9_required_never_reset (Filter.updateD (Filter.init 5) appleWord appleSignals)
    slateWord (List.replicate 5 none) 'a' (by decide) (by decide)

/-- Claim C10: a word whose length differs from the configured word length,
and likewise the None input, is rejected by LetterFilter.accept and by
Filter.accept with the value false; the embedded functions are total, the
length test preceding any position access just as the source early-returns
before indexing. -/
theorem C10_length_mismatch_rejected (F : Filter) (l : Char) (w : Option Word)
    (hwf : ∀ c, (F.letterFilters c).positions.length = F.word_length)
    (hlen : ∀ x, w = some x → x.length ≠ F.word_length) :
    (F.letterFilters l).accept w = false ∧ F.accept w = false := by
  have key : ∀ c : Char, (F.letterFilters c).accept w = false := by
    intro c
    cases w with
    | none => rfl
    | some x =>
      have hx : x.length ≠ (F.letterFilters c).positions.length := by
        rw [hwf c]
        exact hlen x rfl
      simp [LetterFilter.accept, hx]
  refine ⟨key l, ?_⟩
  have ha : 'a' ∈ asciiLowercase := by decide
  exact List.all_eq_false.mpr ⟨'a', ha, by simp [key 'a']⟩

theorem C10_witness :
    ((Filter.init 5).letterFilters 'a').accept none = false ∧
      (Filter.init 5).accept none = false :=
  C10_length_mismatch_rejected (Filter.init 5) 'a' none (fun _ => rfl)
    (fun _ hx => Option.noConfusion hx)

end Wordle
